import Mathlib

/-!
Verification of the axis-aligned box geometry module (`phi/geom/_box.py`).

The module's tensors carry a channel dimension named `vector` holding one
coordinate component per spatial axis.  We embed a rank-`n` coordinate
vector as a function `Fin n → ℚ`, using exact rationals in place of
floating-point numbers, so that elementwise tensor arithmetic becomes
pointwise arithmetic on these functions and reductions over the `vector`
dimension become quantifiers or folds over `Fin n`.  Batched tensors (an
extra batch dimension) are embedded as `Fin bt → (Fin n → ℚ)` where the
relevant operation's batch behaviour matters.
-/

namespace PhiBox

/-- A coordinate vector: the components along the `vector` channel dimension. -/
abbrev Vec (n : ℕ) := Fin n → ℚ

/-- `Box` stores the two opposite corner tensors (`Box.__init__`):
`lower` and `upper`, each with a `vector` dimension of size `n`. -/
structure Box (n : ℕ) where
  lower : Vec n
  upper : Vec n

/-- `AbstractBox.size`: `upper - lower`, elementwise. -/
def size {n : ℕ} (b : Box n) : Vec n :=
  fun i => b.upper i - b.lower i

/-- `AbstractBox.global_to_local`: `(global_position - lower) / size`. -/
def global_to_local {n : ℕ} (b : Box n) (global_position : Vec n) : Vec n :=
  fun i => (global_position i - b.lower i) / size b i

/-- `AbstractBox.local_to_global`: `local_position * size + lower`. -/
def local_to_global {n : ℕ} (b : Box n) (local_position : Vec n) : Vec n :=
  fun i => local_position i * size b i + b.lower i

/-- `math.all(_, dim)` over the `vector` dimension of a boolean tensor. -/
def all_vector {n : ℕ} (f : Fin n → Bool) : Bool :=
  decide (∀ i, f i = true)

/-- `AbstractBox.lies_inside`: `(location >= lower) & (location <= upper)`,
reduced with `math.all` over the `vector` dimension. -/
def lies_inside {n : ℕ} (b : Box n) (location : Vec n) : Bool :=
  all_vector fun i => decide (b.lower i ≤ location i) && decide (location i ≤ b.upper i)

/-- `AbstractBox.lies_inside` on a batched location tensor of shape
`(batch, vector)`: `lower`/`upper` broadcast over the batch dimension, the
comparisons are elementwise, and `math.all` reduces only the `vector`
dimension, so the batch dimension survives into the result. -/
def lies_inside_batch {n bt : ℕ} (b : Box n) (location : Fin bt → Vec n) : Fin bt → Bool :=
  fun j => all_vector fun i => decide (b.lower i ≤ location j i) && decide (location j i ≤ b.upper i)

/-- `math.max(_, dim)` over the (nonempty) `vector` dimension. -/
def max_vector : {n : ℕ} → (Fin (n + 1) → ℚ) → ℚ
  | 0, f => f 0
  | _ + 1, f => max (f 0) (max_vector fun i => f i.succ)

/-- `AbstractBox.approximate_signed_distance`:
`center = 0.5 * (lower + upper)`, `extent = upper - lower`,
`distance = abs(location - center) - extent * 0.5`, reduced with
`math.max` over the `vector` dimension. -/
def approximate_signed_distance {n : ℕ} (b : Box (n + 1)) (location : Vec (n + 1)) : ℚ :=
  max_vector fun i =>
    |location i - 1/2 * (b.lower i + b.upper i)| - (b.upper i - b.lower i) * (1/2)

/-- `AbstractBox._get(vector, axis)`: when the `vector` dimension has size 1
the single component is returned whatever `axis` is; otherwise the component
at index `axis` is selected (`none` embeds an out-of-range index error). -/
def box_get {n : ℕ} (vector : Vec n) (axis : ℕ) : Option ℚ :=
  if h1 : n = 1 then some (vector ⟨0, by omega⟩)
  else if h : axis < n then some (vector ⟨axis, h⟩)
  else none

/-- `AbstractBox.get_lower`. -/
def get_lower {n : ℕ} (b : Box n) (axis : ℕ) : Option ℚ :=
  box_get b.lower axis

/-- `AbstractBox.get_upper`. -/
def get_upper {n : ℕ} (b : Box n) (axis : ℕ) : Option ℚ :=
  box_get b.upper axis

/-- A box tensor carrying a batch dimension of size `bt` in addition to the
`vector` dimension of size `n`: one `lower`/`upper` pair per batch element. -/
structure BatchBox (bt n : ℕ) where
  lower : Fin bt → Vec n
  upper : Fin bt → Vec n

/-- The argument of `AbstractBox.contains`: either a box or a value of some
other type (carrying the name used in the error message). -/
inductive BoxArg (bt n : ℕ) where
  | ofBox (b : BatchBox bt n)
  | nonBox (typeName : String)

/-- `AbstractBox.contains`: for a box argument,
`np.all(other.lower >= self.lower) and np.all(other.upper <= self.upper)` —
`np.all` reduces over every dimension (batch and vector alike), so the
result is one fully reduced boolean; any non-box argument raises. -/
def contains {bt n : ℕ} (self : BatchBox bt n) : BoxArg bt n → Except String Bool
  | .ofBox other =>
      .ok (decide (∀ j i, self.lower j i ≤ other.lower j i) &&
           decide (∀ j i, other.upper j i ≤ self.upper j i))
  | .nonBox typeName =>
      .error (typeName ++ " not supported. Only AbstractBox allowed.")

/-- `Box.__eq__`: `isinstance(other, AbstractBox)` (both sides are boxes
here), the lower corners have the same shape (enforced by the common type
`Box n`), and the lower corners are numerically close (`math.close`, which
over exact rationals is equality).  The upper corner is not compared. -/
def box_eq {n : ℕ} (a b : Box n) : Bool :=
  decide (a.lower = b.lower)

/-- `Box.shifted`: `Box(lower + delta, upper + delta)`. -/
def Box.shifted {n : ℕ} (b : Box n) (delta : Vec n) : Box n :=
  ⟨fun i => b.lower i + delta i, fun i => b.upper i + delta i⟩

/-- `Box.unstack`: always raises `NotImplementedError`. -/
def Box.unstack {n : ℕ} (b : Box n) (dimension : String) :
    Except String (Option (List (Box n))) :=
  .error "NotImplementedError"

/-- `Cuboid` stores `center` and `half_size` tensors. -/
structure Cuboid (n : ℕ) where
  center : Vec n
  half_size : Vec n

/-- `Cuboid.shifted`: `Cuboid(center + delta, half_size)`. -/
def Cuboid.shifted {n : ℕ} (c : Cuboid n) (delta : Vec n) : Cuboid n :=
  ⟨fun i => c.center i + delta i, c.half_size⟩

/-- `np.linspace(a, b, num)`: `num` evenly spaced samples from `a` to `b`
inclusive; a single sample is `a` itself. -/
def linspace (a b : ℚ) (num : ℕ) : Fin num → ℚ :=
  fun i => if num = 1 then a else a + i * (b - a) / ((num : ℚ) - 1)

/-- `GridCell` over one spatial axis: a purely spatial resolution of
`resolution` cells partitioning a rank-1 `bounds` box. -/
structure GridCell where
  resolution : ℕ
  bounds : Box 1

/-- The cell-center tensor built by `GridCell.__init__`: normalized local
coordinates `np.linspace(0.5 / size, 1 - 0.5 / size, size)` along the axis,
mapped through `bounds.local_to_global`. -/
def GridCell.centers (g : GridCell) : Fin g.resolution → Vec 1 :=
  fun k => local_to_global g.bounds
    (fun _ => linspace (1/2 / (g.resolution : ℚ)) (1 - 1/2 / (g.resolution : ℚ)) g.resolution k)

/-- The `half_size` passed by `GridCell.__init__` to `Cuboid.__init__`:
`bounds.size / resolution.sizes / 2`. -/
def GridCell.cell_half_size (g : GridCell) : Vec 1 :=
  fun i => size g.bounds i / (g.resolution : ℚ) / 2

/-- `GridCell.unstack`: the body is `pass`, so the call returns `None`
without raising. -/
def GridCell.unstack (g : GridCell) (dimension : String) :
    Except String (Option (List (Box 1))) :=
  .ok none

/-- The unit box `Box([0], [1])` used by the grid-partition property. -/
def unit_box : Box 1 :=
  ⟨fun _ => 0, fun _ => 1⟩

/-- A bound of a Python `slice`: either absent (`None`) or a number. -/
structure PySlice where
  start : Option ℚ
  stop : Option ℚ
  step : Option ℚ
deriving DecidableEq

/-- Extended rationals: the corner entries produced by slice-based box
construction may be `-np.inf` or `np.inf`. -/
inductive XQ where
  | negInf
  | fin (q : ℚ)
  | posInf
deriving DecidableEq

/-- The order on extended rationals (`-inf ≤ x ≤ inf` always holds). -/
def xle : XQ → XQ → Bool
  | .negInf, _ => true
  | _, .posInf => true
  | .fin a, .fin b => decide (a ≤ b)
  | .posInf, _ => false
  | _, .negInf => false

/-- The per-axis step check of `BoxType.__getitem__`:
`dim.step is None or dim.step == 1`. -/
def step_ok (s : PySlice) : Bool :=
  decide (s.step = none ∨ s.step = some 1)

/-- The lower corner entry contributed by one slice:
`dim.start if dim.start is not None else -np.inf`. -/
def slice_lower (s : PySlice) : XQ :=
  match s.start with
  | none => .negInf
  | some a => .fin a

/-- The upper corner entry contributed by one slice:
`dim.stop if dim.stop is not None else np.inf`. -/
def slice_upper (s : PySlice) : XQ :=
  match s.stop with
  | none => .posInf
  | some b => .fin b

/-- `BoxType.__getitem__`: walk the per-axis slices in order, rejecting a
step that is neither unset nor 1, and collect the lower and upper corner
lists. -/
def box_getitem : List PySlice → Except String (List XQ × List XQ)
  | [] => .ok ([], [])
  | dim :: rest =>
      if step_ok dim then
        match box_getitem rest with
        | .ok (ls, us) => .ok (slice_lower dim :: ls, slice_upper dim :: us)
        | .error e => .error e
      else
        .error "Box: step must be 1"

/-- `lies_inside` for a box whose corners may be infinite, at a finite
point: `lower <= p` and `p <= upper` elementwise, reduced over the
`vector` dimension. -/
def lies_inside_x (lower upper : List XQ) (p : List ℚ) : Bool :=
  (List.zipWith (fun l q => xle l (.fin q)) lower p).all (fun c => c) &&
  (List.zipWith (fun q u => xle (.fin q) u) p upper).all (fun c => c)

/-! ## Theorems -/

/-- Every component is at most the `vector`-reduced maximum. -/
theorem le_max_vector {n : ℕ} (f : Fin (n + 1) → ℚ) (i : Fin (n + 1)) :
    f i ≤ max_vector f := by
  induction n with
  | zero =>
      have hi : i = 0 := by
        ext
        omega
      subst hi
      exact le_refl _
  | succ m ih =>
      cases i using Fin.cases with
      | zero => exact le_max_left _ _
      | succ j => exact (ih (fun k => f k.succ) j).trans (le_max_right _ _)

/-- The `vector`-reduced maximum is below any strict upper bound of the
components. -/
theorem max_vector_lt {n : ℕ} (f : Fin (n + 1) → ℚ) (c : ℚ)
    (h : ∀ i, f i < c) : max_vector f < c := by
  induction n with
  | zero => exact h 0
  | succ m ih => exact max_lt (h 0) (ih (fun k => f k.succ) fun j => h j.succ)

/-- The `vector`-reduced maximum is below any upper bound of the
components. -/
theorem max_vector_le {n : ℕ} (f : Fin (n + 1) → ℚ) (c : ℚ)
    (h : ∀ i, f i ≤ c) : max_vector f ≤ c := by
  induction n with
  | zero => exact h 0
  | succ m ih => exact max_le (h 0) (ih (fun k => f k.succ) fun j => h j.succ)

/-- C1: for every box `b` with strictly positive size on every axis and every
point `p`, `b.local_to_global(b.global_to_local(p)) = p`:
`global_to_local` computes `(p - lower) / size`, `local_to_global` computes
`p * size + lower`, and over exact arithmetic they are exact inverses. -/
theorem local_global_round_trip {n : ℕ} (b : Box n) (p : Vec n)
    (hpos : ∀ i, b.lower i < b.upper i) :
    local_to_global b (global_to_local b p) = p := by
  funext i
  have hne : size b i ≠ 0 := sub_ne_zero.mpr (hpos i).ne'
  show (p i - b.lower i) / size b i * size b i + b.lower i = p i
  rw [div_mul_cancel₀ _ hne]
  ring

/-- C1 witness: the round trip at the box `[0,1] × [1,4]` and the point `(5, 7)`. -/
theorem local_global_round_trip_at :
    (∀ i, (Box.mk ![(0:ℚ), 1] ![1, 4]).lower i < (Box.mk ![(0:ℚ), 1] ![1, 4]).upper i) ∧
    local_to_global (Box.mk ![(0:ℚ), 1] ![1, 4])
      (global_to_local (Box.mk ![(0:ℚ), 1] ![1, 4]) ![5, 7]) = ![5, 7] :=
  ⟨by decide, local_global_round_trip (Box.mk ![(0:ℚ), 1] ![1, 4]) ![5, 7] (by decide)⟩

/-- C8: `Box.shifted(delta)` is `Box(lower + delta, upper + delta)`, hence a
pure translation leaving `size` unchanged, and `Cuboid.shifted(delta)`
translates `center` by `delta` while keeping `half_size` exactly. -/
theorem shifted_translates {n : ℕ} (b : Box n) (c : Cuboid n) (delta : Vec n) :
    (b.shifted delta = Box.mk (fun i => b.lower i + delta i) (fun i => b.upper i + delta i) ∧
      size (b.shifted delta) = size b) ∧
    (c.shifted delta).center = (fun i => c.center i + delta i) ∧
    (c.shifted delta).half_size = c.half_size := by
  refine ⟨⟨rfl, funext fun i => ?_⟩, rfl, rfl⟩
  show b.upper i + delta i - (b.lower i + delta i) = b.upper i - b.lower i
  ring

/-- C10: `GridCell.unstack` returns `None` for every dimension argument —
it neither raises `NotImplementedError` (as `Box.unstack` does) nor
produces unstacked geometry. -/
theorem gridcell_unstack_returns_none :
    (∀ (g : GridCell) (dimension : String), g.unstack dimension = Except.ok none) ∧
    (∀ (n : ℕ) (b : Box n) (dimension : String),
        b.unstack dimension = Except.error "NotImplementedError") :=
  ⟨fun _ _ => rfl, fun _ _ _ => rfl⟩

/-- C3: `contains(other)` yields one fully reduced boolean, true iff
`other.lower ≥ self.lower` and `other.upper ≤ self.upper` hold at every
batch element and every vector component; a non-box argument makes it fail
with an error; and `contains` is reflexive. -/
theorem contains_spec {bt n : ℕ} (self other : BatchBox bt n) (typeName : String) :
    (contains self (.ofBox other) = .ok true ↔
      (∀ j i, self.lower j i ≤ other.lower j i) ∧
      (∀ j i, other.upper j i ≤ self.upper j i)) ∧
    (∃ e, contains self (.nonBox typeName) = .error e) ∧
    contains self (.ofBox self) = .ok true := by
  refine ⟨?_, ⟨typeName ++ " not supported. Only AbstractBox allowed.", rfl⟩, ?_⟩
  · simp [contains]
  · simp [contains]

/-- C4: `Box.__eq__` compares only the shape and the lower corner: two boxes
of the same rank with equal lower corners compare equal whatever their upper
corners are. -/
theorem box_eq_ignores_upper {n : ℕ} (a b : Box n) (h : a.lower = b.lower) :
    box_eq a b = true := by
  simp [box_eq, h]

/-- C4 witness: `Box([0], [1])` and `Box([0], [2])` have different upper
corners yet compare equal. -/
theorem box_eq_ignores_upper_at :
    (Box.mk ![(0:ℚ)] ![1]).upper ≠ (Box.mk ![(0:ℚ)] ![2]).upper ∧
    (Box.mk ![(0:ℚ)] ![1]).lower = (Box.mk ![(0:ℚ)] ![2]).lower ∧
    box_eq (Box.mk ![(0:ℚ)] ![1]) (Box.mk ![(0:ℚ)] ![2]) = true :=
  ⟨by decide, rfl, box_eq_ignores_upper (Box.mk ![(0:ℚ)] ![1]) (Box.mk ![(0:ℚ)] ![2]) rfl⟩

/-- C5: on a batched location tensor, `lies_inside` reduces the elementwise
conjunction `lower ≤ p ≤ upper` over the `vector` dimension only, each batch
element yielding its own independent boolean; `Box((0,0),(10,20))` contains
`(5,10)` and not `(15,10)`. -/
theorem lies_inside_spec {n bt : ℕ} (b : Box n) (location : Fin bt → Vec n) :
    (∀ j, lies_inside_batch b location j =
        decide (∀ i, b.lower i ≤ location j i ∧ location j i ≤ b.upper i)) ∧
    lies_inside (Box.mk ![(0:ℚ), 0] ![10, 20]) ![5, 10] = true ∧
    lies_inside (Box.mk ![(0:ℚ), 0] ![10, 20]) ![15, 10] = false := by
  refine ⟨fun j => ?_, by decide, by decide⟩
  simp [lies_inside_batch, all_vector]

/-- C9: for a box whose `vector` dimension has size 1, `get_lower`/`get_upper`
return the single stored component for every requested axis index; for a
`vector` dimension of size at least 2 they return the component at the
requested index. -/
theorem box_get_spec :
    (∀ (b : Box 1) (axis : ℕ),
        get_lower b axis = some (b.lower 0) ∧ get_upper b axis = some (b.upper 0)) ∧
    (∀ (m : ℕ) (b : Box (m + 2)) (axis : ℕ) (h : axis < m + 2),
        get_lower b axis = some (b.lower ⟨axis, h⟩) ∧
        get_upper b axis = some (b.upper ⟨axis, h⟩)) := by
  constructor
  · intro b axis
    constructor <;> simp [get_lower, get_upper, box_get]
  · intro m b axis h
    have h1 : m + 2 ≠ 1 := by omega
    constructor <;> simp [get_lower, get_upper, box_get, h1, h]

/-- C9 witness: a size-1 box answers axis 5 with its single component, and a
size-2 box answers axis 1 with its second component. -/
theorem box_get_spec_at :
    (get_lower (Box.mk ![(3:ℚ)] ![7]) 5 = some ((Box.mk ![(3:ℚ)] ![7]).lower 0) ∧
     get_upper (Box.mk ![(3:ℚ)] ![7]) 5 = some ((Box.mk ![(3:ℚ)] ![7]).upper 0)) ∧
    ((1 : ℕ) < 0 + 2 ∧
     get_lower (Box.mk ![(3:ℚ), 4] ![7, 8]) 1 =
       some ((Box.mk ![(3:ℚ), 4] ![7, 8]).lower ⟨1, by omega⟩)) :=
  ⟨box_get_spec.1 (Box.mk ![(3:ℚ)] ![7]) 5,
   by omega,
   (box_get_spec.2 0 (Box.mk ![(3:ℚ), 4] ![7, 8]) 1 (by omega)).1⟩

/-- C6: `approximate_signed_distance` — the maximum over the `vector`
dimension of `|p - (lower+upper)/2| - (upper-lower)/2` — is strictly
negative at a point strictly interior to a box with `lower < upper`,
strictly positive at a strictly exterior point, and zero at a boundary
point. -/
theorem signed_distance_sign {n : ℕ} (b : Box (n + 1))
    (hbox : ∀ i, b.lower i < b.upper i) :
    (∀ p : Vec (n + 1), (∀ i, b.lower i < p i ∧ p i < b.upper i) →
        approximate_signed_distance b p < 0) ∧
    (∀ p : Vec (n + 1), (∃ i, p i < b.lower i ∨ b.upper i < p i) →
        0 < approximate_signed_distance b p) ∧
    (∀ p : Vec (n + 1), (∀ i, b.lower i ≤ p i ∧ p i ≤ b.upper i) →
        (∃ i, p i = b.lower i ∨ p i = b.upper i) →
        approximate_signed_distance b p = 0) := by
  refine ⟨fun p hp => ?_, fun p hp => ?_, fun p hp hex => ?_⟩
  · apply max_vector_lt
    intro i
    obtain ⟨h1, h2⟩ := hp i
    have habs : |p i - 1/2 * (b.lower i + b.upper i)| <
        (b.upper i - b.lower i) * (1/2) := by
      rw [abs_lt]
      constructor <;> linarith
    linarith
  · obtain ⟨i, hi⟩ := hp
    have hcomp : 0 < |p i - 1/2 * (b.lower i + b.upper i)| -
        (b.upper i - b.lower i) * (1/2) := by
      rcases hi with hlt | hgt
      · have hneg := neg_abs_le (p i - 1/2 * (b.lower i + b.upper i))
        linarith
      · have hpos := le_abs_self (p i - 1/2 * (b.lower i + b.upper i))
        linarith
    calc (0 : ℚ) < _ := hcomp
      _ ≤ approximate_signed_distance b p := le_max_vector _ i
  · obtain ⟨i0, hi0⟩ := hex
    apply le_antisymm
    · apply max_vector_le
      intro i
      obtain ⟨h1, h2⟩ := hp i
      have habs : |p i - 1/2 * (b.lower i + b.upper i)| ≤
          (b.upper i - b.lower i) * (1/2) := by
        rw [abs_le]
        constructor <;> linarith
      linarith
    · have hcomp : |p i0 - 1/2 * (b.lower i0 + b.upper i0)| -
          (b.upper i0 - b.lower i0) * (1/2) = 0 := by
        have hlu := (hbox i0).le
        rcases hi0 with he | he
        · rw [he, abs_of_nonpos (by linarith)]
          ring
        · rw [he, abs_of_nonneg (by linarith)]
          ring
      calc (0 : ℚ) = _ := hcomp.symm
        _ ≤ approximate_signed_distance b p := le_max_vector _ i0

/-- C6 witness: for the box `[0, 10]`, the signed distance is negative at
the interior point 5, positive at the exterior point 12, and zero at the
boundary point 10. -/
theorem signed_distance_sign_at :
    (∀ i, (Box.mk ![(0:ℚ)] ![10]).lower i < (Box.mk ![(0:ℚ)] ![10]).upper i) ∧
    approximate_signed_distance (Box.mk ![(0:ℚ)] ![10]) ![5] < 0 ∧
    0 < approximate_signed_distance (Box.mk ![(0:ℚ)] ![10]) ![12] ∧
    approximate_signed_distance (Box.mk ![(0:ℚ)] ![10]) ![10] = 0 :=
  ⟨by decide,
   (signed_distance_sign (Box.mk ![(0:ℚ)] ![10]) (by decide)).1 ![5] (by decide),
   (signed_distance_sign (Box.mk ![(0:ℚ)] ![10]) (by decide)).2.1 ![12] ⟨0, by decide⟩,
   (signed_distance_sign (Box.mk ![(0:ℚ)] ![10]) (by decide)).2.2 ![10] (by decide)
     ⟨0, by decide⟩⟩

/-- The normalized local coordinates built by `GridCell.__init__`:
`np.linspace(0.5 / n, 1 - 0.5 / n, n)` samples exactly the midpoints
`(k + 1/2) / n` of `n` equal cells of the unit interval. -/
theorem linspace_midpoints (n : ℕ) (hn : 0 < n) (k : Fin n) :
    linspace (1/2 / (n : ℚ)) (1 - 1/2 / (n : ℚ)) n k = ((k : ℚ) + 1/2) / (n : ℚ) := by
  rcases Nat.lt_or_ge n 2 with h2 | h2
  · have h1 : n = 1 := by omega
    subst h1
    have hk0 : (k : ℕ) = 0 := by omega
    have hk : ((k : ℕ) : ℚ) = 0 := by rw [hk0]; norm_num
    simp [linspace, hk]
  · have h1 : n ≠ 1 := by omega
    have hn0 : (n : ℚ) ≠ 0 := Nat.cast_ne_zero.mpr (by omega)
    have hge : (2 : ℚ) ≤ (n : ℚ) := by exact_mod_cast h2
    have hn1 : (n : ℚ) - 1 ≠ 0 := by intro heq; linarith
    simp only [linspace, if_neg h1]
    field_simp
    ring

/-- The `GridCell` centers over the unit box are the normalized midpoints. -/
theorem gridcell_unit_centers (n : ℕ) (hn : 0 < n) (k : Fin n) :
    GridCell.centers ⟨n, unit_box⟩ k = fun _ => ((k : ℚ) + 1/2) / (n : ℚ) := by
  funext i
  simp only [GridCell.centers, local_to_global, unit_box, size]
  rw [linspace_midpoints n hn k]
  ring

/-- The `GridCell` half-size over the unit box is half a cell width. -/
theorem gridcell_unit_half_size (n : ℕ) :
    GridCell.cell_half_size ⟨n, unit_box⟩ = fun _ => 1 / (2 * (n : ℚ)) := by
  funext i
  simp only [GridCell.cell_half_size, unit_box, size]
  rw [div_div]
  ring_nf

/-- C2: over `bounds = Box([0], [1])` with `n` cells on one axis, the
`GridCell` centers are exactly `(k + 1/2) / n` and the half-size is
`1 / (2n)`; at `resolution = 4` the centers are `1/8, 3/8, 5/8, 7/8`, each
with half-size `1/8`. -/
theorem gridcell_unit_partition (n : ℕ) (hn : 0 < n) :
    (∀ k : Fin n, GridCell.centers ⟨n, unit_box⟩ k = fun _ => ((k : ℚ) + 1/2) / (n : ℚ)) ∧
    GridCell.cell_half_size ⟨n, unit_box⟩ = (fun _ => 1 / (2 * (n : ℚ))) ∧
    (GridCell.centers ⟨4, unit_box⟩ (⟨0, by decide⟩ : Fin 4) = fun _ => 1/8) ∧
    (GridCell.centers ⟨4, unit_box⟩ (⟨1, by decide⟩ : Fin 4) = fun _ => 3/8) ∧
    (GridCell.centers ⟨4, unit_box⟩ (⟨2, by decide⟩ : Fin 4) = fun _ => 5/8) ∧
    (GridCell.centers ⟨4, unit_box⟩ (⟨3, by decide⟩ : Fin 4) = fun _ => 7/8) ∧
    GridCell.cell_half_size ⟨4, unit_box⟩ = fun _ => 1/8 := by
  have h4 : (0 : ℕ) < 4 := by omega
  refine ⟨gridcell_unit_centers n hn, gridcell_unit_half_size n, ?_, ?_, ?_, ?_, ?_⟩
  · rw [gridcell_unit_centers 4 h4]
    funext x
    show (((0 : ℕ) : ℚ) + 1/2) / ((4 : ℕ) : ℚ) = 1/8
    norm_num
  · rw [gridcell_unit_centers 4 h4]
    funext x
    show (((1 : ℕ) : ℚ) + 1/2) / ((4 : ℕ) : ℚ) = 3/8
    norm_num
  · rw [gridcell_unit_centers 4 h4]
    funext x
    show (((2 : ℕ) : ℚ) + 1/2) / ((4 : ℕ) : ℚ) = 5/8
    norm_num
  · rw [gridcell_unit_centers 4 h4]
    funext x
    show (((3 : ℕ) : ℚ) + 1/2) / ((4 : ℕ) : ℚ) = 7/8
    norm_num
  · rw [gridcell_unit_half_size 4]
    funext x
    show 1 / (2 * ((4 : ℕ) : ℚ)) = 1/8
    norm_num

/-- C2 witness: the grid-partition theorem applied at `resolution = 4`. -/
theorem gridcell_unit_partition_at :
    (0 : ℕ) < 4 ∧
    ((∀ k : Fin 4,
        GridCell.centers ⟨4, unit_box⟩ k = fun _ => ((k : ℚ) + 1/2) / ((4 : ℕ) : ℚ)) ∧
     GridCell.cell_half_size ⟨4, unit_box⟩ = (fun _ => 1 / (2 * ((4 : ℕ) : ℚ))) ∧
     (GridCell.centers ⟨4, unit_box⟩ (⟨0, by decide⟩ : Fin 4) = fun _ => 1/8) ∧
     (GridCell.centers ⟨4, unit_box⟩ (⟨1, by decide⟩ : Fin 4) = fun _ => 3/8) ∧
     (GridCell.centers ⟨4, unit_box⟩ (⟨2, by decide⟩ : Fin 4) = fun _ => 5/8) ∧
     (GridCell.centers ⟨4, unit_box⟩ (⟨3, by decide⟩ : Fin 4) = fun _ => 7/8) ∧
     GridCell.cell_half_size ⟨4, unit_box⟩ = fun _ => 1/8) :=
  ⟨by omega, gridcell_unit_partition 4 (by omega)⟩

/-- C7: slice-based box construction maps an absent lower bound to negative
infinity and an absent upper bound to positive infinity, rejects any step
that is neither unset nor 1 with an error, and the box built from
`slice(None, 5)` on one axis contains every point with coordinate at
most 5. -/
theorem box_getitem_spec :
    (∀ ss : List PySlice, (∀ s ∈ ss, step_ok s = true) →
        box_getitem ss = .ok (ss.map slice_lower, ss.map slice_upper)) ∧
    (∀ ss : List PySlice, (∃ s ∈ ss, step_ok s = false) →
        ∃ e, box_getitem ss = .error e) ∧
    (∀ stop step, slice_lower ⟨none, stop, step⟩ = XQ.negInf) ∧
    (∀ start step, slice_upper ⟨start, none, step⟩ = XQ.posInf) ∧
    box_getitem [⟨none, some 5, none⟩] = .ok ([XQ.negInf], [XQ.fin 5]) ∧
    ∀ q : ℚ, q ≤ 5 → lies_inside_x [XQ.negInf] [XQ.fin 5] [q] = true := by
  refine ⟨?_, ?_, fun _ _ => rfl, fun _ _ => rfl, rfl, fun q hq => ?_⟩
  · intro ss
    induction ss with
    | nil => intro h; rfl
    | cons dim rest ih =>
        intro h
        have hd : step_ok dim = true := h dim (by simp)
        have ht := ih fun s hs => h s (by simp [hs])
        simp [box_getitem, hd, ht]
  · intro ss
    induction ss with
    | nil =>
        intro h
        simp at h
    | cons dim rest ih =>
        intro h
        by_cases hd : step_ok dim = true
        · have hrest : ∃ s ∈ rest, step_ok s = false := by
            obtain ⟨s, hs, hbad⟩ := h
            rcases List.mem_cons.mp hs with rfl | hs2
            · rw [hd] at hbad
              cases hbad
            · exact ⟨s, hs2, hbad⟩
          obtain ⟨e, he⟩ := ih hrest
          refine ⟨e, ?_⟩
          simp [box_getitem, hd, he]
        · refine ⟨"Box: step must be 1", ?_⟩
          simp [box_getitem, hd]
  · simp [lies_inside_x, xle, hq]

/-- C7 witness: a slice with step 2 is rejected, and the half-infinite box
below 5 contains the point with coordinate -1000000. -/
theorem box_getitem_spec_at :
    (∃ s ∈ [PySlice.mk none none (some 2)], step_ok s = false) ∧
    (∃ e, box_getitem [PySlice.mk none none (some 2)] = Except.error e) ∧
    (-1000000 : ℚ) ≤ 5 ∧
    lies_inside_x [XQ.negInf] [XQ.fin 5] [(-1000000 : ℚ)] = true :=
  ⟨by decide,
   box_getitem_spec.2.1 [PySlice.mk none none (some 2)] (by decide),
   by norm_num,
   box_getitem_spec.2.2.2.2.2 (-1000000) (by norm_num)⟩

end PhiBox
